import Mathlib

/-!
Verification of the ZnDraw modifier library (`src/zndraw/modify/__init__.py`)
and the bond/frame render-data service (`src/zndraw/tools/data.py`) against
their natural-language specification.

Conventions of the embedding:
* 3-D coordinates are real-valued vectors (`V3`); machine floats are modelled
  as real numbers.
* The live session object (`vis` in the source) is the explicit state record
  `VisState`; every modifier `run` method becomes a function
  `VisState → Except PyError VisState` (Python exceptions become `Except.error`).
* Per-atom auxiliary arrays (`colors`, `radii`) and the dynamic `connectivity`
  attribute are modelled with `Option`/`Bool` fields so that attribute/key
  presence is explicit.
* External data tables of the atomic-structure library (covalent bonding
  cutoffs, per-element masses, reference colours) are parameters of the
  embedded functions.
-/

/-- A 3-D vector with real components. -/
structure V3 where
  x : ℝ
  y : ℝ
  z : ℝ

namespace V3

@[ext] theorem ext' (a b : V3) (hx : a.x = b.x) (hy : a.y = b.y) (hz : a.z = b.z) : a = b := by
  cases a; cases b; simp_all

noncomputable instance : Add V3 := ⟨fun a b => ⟨a.x + b.x, a.y + b.y, a.z + b.z⟩⟩
noncomputable instance : Sub V3 := ⟨fun a b => ⟨a.x - b.x, a.y - b.y, a.z - b.z⟩⟩
noncomputable instance : SMul ℝ V3 := ⟨fun t a => ⟨t * a.x, t * a.y, t * a.z⟩⟩
instance : Zero V3 := ⟨⟨0, 0, 0⟩⟩

@[simp] theorem add_x (a b : V3) : (a + b).x = a.x + b.x := rfl
@[simp] theorem add_y (a b : V3) : (a + b).y = a.y + b.y := rfl
@[simp] theorem add_z (a b : V3) : (a + b).z = a.z + b.z := rfl
@[simp] theorem sub_x (a b : V3) : (a - b).x = a.x - b.x := rfl
@[simp] theorem sub_y (a b : V3) : (a - b).y = a.y - b.y := rfl
@[simp] theorem sub_z (a b : V3) : (a - b).z = a.z - b.z := rfl
@[simp] theorem smul_x (t : ℝ) (a : V3) : (t • a).x = t * a.x := rfl
@[simp] theorem smul_y (t : ℝ) (a : V3) : (t • a).y = t * a.y := rfl
@[simp] theorem smul_z (t : ℝ) (a : V3) : (t • a).z = t * a.z := rfl
@[simp] theorem zero_x : (0 : V3).x = 0 := rfl
@[simp] theorem zero_y : (0 : V3).y = 0 := rfl
@[simp] theorem zero_z : (0 : V3).z = 0 := rfl

/-- Dot product. -/
noncomputable def dot (a b : V3) : ℝ := a.x * b.x + a.y * b.y + a.z * b.z

/-- Cross product. -/
noncomputable def cross (a b : V3) : V3 :=
  ⟨a.y * b.z - a.z * b.y, a.z * b.x - a.x * b.z, a.x * b.y - a.y * b.x⟩

/-- Squared Euclidean norm. -/
noncomputable def normSq (a : V3) : ℝ := dot a a

/-- Euclidean norm. -/
noncomputable def norm (a : V3) : ℝ := Real.sqrt (normSq a)

/-- `v / np.linalg.norm(v)`: normalisation to unit length (junk for `v = 0`). -/
noncomputable def normalize (a : V3) : V3 := (1 / norm a) • a

theorem normSq_nonneg (a : V3) : 0 ≤ normSq a := by
  simp only [normSq, dot]
  nlinarith [sq_nonneg a.x, sq_nonneg a.y, sq_nonneg a.z]

theorem normSq_pos_of_ne_zero (a : V3) (h : a ≠ 0) : 0 < normSq a := by
  rcases lt_or_eq_of_le (normSq_nonneg a) with hlt | heq
  · exact hlt
  · exfalso
    apply h
    have hs : a.x * a.x + a.y * a.y + a.z * a.z = 0 := by
      simpa [normSq, dot] using heq.symm
    have hx : a.x = 0 := by nlinarith [sq_nonneg a.x, sq_nonneg a.y, sq_nonneg a.z]
    have hy : a.y = 0 := by nlinarith [sq_nonneg a.x, sq_nonneg a.y, sq_nonneg a.z]
    have hz : a.z = 0 := by nlinarith [sq_nonneg a.x, sq_nonneg a.y, sq_nonneg a.z]
    exact V3.ext' a 0 hx hy hz

theorem dot_normalize_self (a : V3) (h : a ≠ 0) : dot (normalize a) (normalize a) = 1 := by
  have hq : 0 < normSq a := normSq_pos_of_ne_zero a h
  have hsqrt : Real.sqrt (normSq a) * Real.sqrt (normSq a) = normSq a :=
    Real.mul_self_sqrt (le_of_lt hq)
  have hne : Real.sqrt (normSq a) ≠ 0 := by
    intro h0
    rw [h0, mul_zero] at hsqrt
    exact absurd hsqrt.symm (ne_of_gt hq)
  simp only [normalize, norm, dot, smul_x, smul_y, smul_z]
  have expand : (1 / Real.sqrt (normSq a) * a.x) * (1 / Real.sqrt (normSq a) * a.x) +
      (1 / Real.sqrt (normSq a) * a.y) * (1 / Real.sqrt (normSq a) * a.y) +
      (1 / Real.sqrt (normSq a) * a.z) * (1 / Real.sqrt (normSq a) * a.z) =
      (a.x * a.x + a.y * a.y + a.z * a.z) / (Real.sqrt (normSq a) * Real.sqrt (normSq a)) := by
    field_simp
  rw [expand, hsqrt]
  have : a.x * a.x + a.y * a.y + a.z * a.z = normSq a := by simp [normSq, dot]
  rw [this]
  exact div_self (ne_of_gt hq)

end V3

/-- Rodrigues rotation of the point `p` by `θ` radians about the axis of
direction `u` (assumed unit) through the centre `c`:
exactly the formula used by `ase.Atoms.rotate`. -/
noncomputable def rotatePointU (θ : ℝ) (u c p : V3) : V3 :=
  let w := p - c
  c + Real.cos θ • w + Real.sin θ • V3.cross u w + ((1 - Real.cos θ) * V3.dot u w) • u

/-- `ase.Atoms.rotate(a, v, center)`: angle in degrees, raw (non-unit) axis
vector `v` normalised internally. -/
noncomputable def rotatePoint (adeg : ℝ) (v c p : V3) : V3 :=
  rotatePointU (adeg * Real.pi / 180) (V3.normalize v) c p

theorem rotatePointU_zero (u c p : V3) : rotatePointU 0 u c p = p := by
  simp only [rotatePointU, Real.cos_zero, Real.sin_zero]
  ext <;> simp [V3.cross, V3.dot]

theorem rotatePointU_comp (θ θ' : ℝ) (u c p : V3) (hu : V3.dot u u = 1) :
    rotatePointU θ u c (rotatePointU θ' u c p) = rotatePointU (θ + θ') u c p := by
  have hu' : u.x * u.x + u.y * u.y + u.z * u.z = 1 := hu
  simp only [rotatePointU, V3.cross, V3.dot]
  rw [Real.cos_add, Real.sin_add]
  refine V3.ext' _ _ ?_ ?_ ?_ <;>
    simp only [V3.add_x, V3.add_y, V3.add_z, V3.sub_x, V3.sub_y, V3.sub_z,
      V3.smul_x, V3.smul_y, V3.smul_z]
  · linear_combination (((1 - Real.cos θ) * (1 - Real.cos θ') *
      (u.x * (p.x - c.x) + u.y * (p.y - c.y) + u.z * (p.z - c.z)) * u.x -
      Real.sin θ * Real.sin θ' * (p.x - c.x)) : ℝ) * hu'
  · linear_combination (((1 - Real.cos θ) * (1 - Real.cos θ') *
      (u.x * (p.x - c.x) + u.y * (p.y - c.y) + u.z * (p.z - c.z)) * u.y -
      Real.sin θ * Real.sin θ' * (p.y - c.y)) : ℝ) * hu'
  · linear_combination (((1 - Real.cos θ) * (1 - Real.cos θ') *
      (u.x * (p.x - c.x) + u.y * (p.y - c.y) + u.z * (p.z - c.z)) * u.z -
      Real.sin θ * Real.sin θ' * (p.z - c.z)) : ℝ) * hu'

theorem rotatePointU_iterate (θ : ℝ) (u c : V3) (hu : V3.dot u u = 1) (n : ℕ) (p : V3) :
    (rotatePointU θ u c)^[n] p = rotatePointU (n * θ) u c p := by
  induction n generalizing p with
  | zero => simp [rotatePointU_zero]
  | succ k ih =>
      rw [Function.iterate_succ_apply, ih, rotatePointU_comp _ _ _ _ _ hu]
      congr 1
      push_cast
      ring

theorem rotatePoint_iterate (adeg : ℝ) (v c : V3) (hv : v ≠ 0) (n : ℕ) (p : V3) :
    (rotatePoint adeg v c)^[n] p = rotatePoint (n * adeg) v c p := by
  unfold rotatePoint
  rw [rotatePointU_iterate _ _ _ (V3.dot_normalize_self v hv) n p]
  congr 1
  ring

/-! ## Data model of the live session (`vis`, a `ZnDraw` object) -/

/-- Python exceptions that the modifier `run` methods can raise. -/
inductive PyError where
  | valueError (msg : String)
  | keyError (key : String)
  | attributeError (name : String)
  deriving DecidableEq

/-- One trajectory frame: an `ase.Atoms` object as the modifiers see it.
`colors`/`radii` model the optional per-atom auxiliary arrays
(`atoms.arrays["colors"]`, `atoms.arrays["radii"]`); `connectivity` models the
presence of the dynamically attached `atoms.connectivity` attribute (its
content is never inspected by this code, only its presence). `masses` is the
effective per-atom mass list (`atoms.get_masses()`). -/
structure Frame where
  symbols : List String
  positions : List V3
  masses : List ℝ
  cell : V3 × V3 × V3
  pbc : Bool × Bool × Bool
  colors : Option (List String)
  radii : Option (List ℝ)
  connectivity : Bool

/-- `ase.Atoms()`: the empty structure (no atoms, zero cell, no auxiliary
arrays, no connectivity attribute). -/
def emptyAtoms : Frame :=
  { symbols := [], positions := [], masses := [], cell := (0, 0, 0),
    pbc := (false, false, false), colors := none, radii := none, connectivity := false }

/-- A scene-overlay plane (`zndraw.draw.Plane`), as reset by `NewCanvas`. -/
structure PlaneG where
  position : V3
  rotation : V3
  scale : V3
  width : ℝ
  height : ℝ

/-- The live session state observed and mutated by the modifiers: trajectory
(`vis[...]`), active `step`, `selection`, placed `points`, interpolated
`segments`, `camera` (position, target), `bookmarks` and `geometries`. -/
structure VisState where
  frames : List Frame
  step : ℕ
  selection : List ℕ
  points : List V3
  segments : List V3
  camera : V3 × V3
  bookmarks : List (ℕ × String)
  geometries : List PlaneG

/-- `vis.atoms`: the frame at the active step. -/
def currentFrame (s : VisState) : Frame := s.frames.getD s.step emptyAtoms

/-- `del vis[vis.step + 1:]` (guarded by `if len(vis) > vis.step + 1`, which a
plain `take` already subsumes: taking more than the length is the identity). -/
def truncFuture (s : VisState) : VisState :=
  { s with frames := s.frames.take (s.step + 1) }

/-- Dict-merge `vis.bookmarks | {step: label}` (right operand wins on a key). -/
def insertBookmark (bs : List (ℕ × String)) (k : ℕ) (lbl : String) : List (ℕ × String) :=
  bs.filter (fun b => b.1 ≠ k) ++ [(k, lbl)]

/-- Sub-structure `atoms[ids]` (advanced indexing): the atoms named by `ids`
in that order, all per-atom arrays sliced alike.  The result is a fresh
`ase.Atoms` object, so the dynamic `connectivity` attribute is not carried
over. -/
noncomputable def subFrame (ids : List ℕ) (f : Frame) : Frame :=
  { symbols := ids.map (fun i => f.symbols.getD i ("")),
    positions := ids.map (fun i => f.positions.getD i 0),
    masses := ids.map (fun i => f.masses.getD i 0),
    cell := f.cell, pbc := f.pbc,
    colors := f.colors.map (fun cs => ids.map (fun i => cs.getD i (""))),
    radii := f.radii.map (fun rs => ids.map (fun i => rs.getD i 0)),
    connectivity := false }

/-- `UpdateScene.apply_selection`: split into (selected, remaining); when no
atoms remain outside the selection the remainder is `ase.Atoms()`. -/
noncomputable def apply_selection (atom_ids : List ℕ) (atoms : Frame) : Frame × Frame :=
  let atoms_selected := subFrame atom_ids atoms
  let remaining_ids := (List.range atoms.positions.length).filter (fun i => i ∉ atom_ids)
  let atoms_remaining := if remaining_ids.length > 0 then subFrame remaining_ids atoms else emptyAtoms
  (atoms_selected, atoms_remaining)

/-- NumPy fancy-index assignment `positions[ids] = vals` (`j0` is the index of
the first element of `pos`): positions listed in `ids` receive the value at
the matching position of `vals`, all others are kept.  (Selections are
duplicate-free index lists; for those this is exactly NumPy's semantics.) -/
noncomputable def scatterFrom (j0 : ℕ) (ids : List ℕ) (vals : List V3) : List V3 → List V3
  | [] => []
  | p :: ps => (if j0 ∈ ids then vals.getD (ids.indexOf j0) p else p) :: scatterFrom (j0 + 1) ids vals ps

/-- `positions[ids] = vals` on a whole position list. -/
noncomputable def scatter (pos : List V3) (ids : List ℕ) (vals : List V3) : List V3 :=
  scatterFrom 0 ids vals pos

/-! ## The modifier library (`zndraw.modify`) -/

/-- `direction: Literal["left", "right"]` of `Rotate`. -/
inductive Direction where
  | left
  | right
  deriving DecidableEq

/-- Validated configuration of `Rotate` (`angle`, `direction`, `steps`,
`sleep`; `sleep` only paces the animation and has no state effect). -/
structure RotateCfg where
  angle : ℝ
  direction : Direction
  steps : ℕ
  sleep : ℝ

/-- The body of `Rotate.run`'s `for _ in range(self.steps)` loop, on the state
(positions of `atoms_selected`, the working `atoms` object, frames appended so
far): rotate the selected sub-structure, write its positions back into
`atoms`, append the result to the trajectory. -/
noncomputable def rotateLoop (inc : ℝ) (v c : V3) (ids : List ℕ) :
    ℕ → List V3 × Frame × List Frame → List V3 × Frame × List Frame
  | 0, st => st
  | n + 1, (sp, atoms, acc) =>
      let sp2 := sp.map (rotatePoint inc v c)
      let atoms2 := { atoms with positions := scatter atoms.positions ids sp2 }
      rotateLoop inc v c ids n (sp2, atoms2, acc ++ [atoms2])

/-- `angle = self.angle if self.direction == "left" else -self.angle`. -/
noncomputable def signedAngle (cfg : RotateCfg) : ℝ :=
  match cfg.direction with
  | Direction.left => cfg.angle
  | Direction.right => -cfg.angle

/-- `Rotate.run`. -/
noncomputable def rotateRun (cfg : RotateCfg) (s : VisState) : Except PyError VisState :=
  let s1 := truncFuture s
  let points := s1.points
  let atom_ids := s1.selection
  let atoms := currentFrame s1
  if points.length ≠ 2 then
    Except.error (PyError.valueError ("Please draw exactly 2 points to rotate around."))
  else
    let inc := signedAngle cfg / (cfg.steps : ℝ)
    let atoms_selected := (apply_selection atom_ids atoms).1
    let p0 := points.getD 0 0
    let vector := points.getD 1 0 - p0
    let res := rotateLoop inc vector p0 atom_ids cfg.steps (atoms_selected.positions, atoms, [])
    Except.ok { s1 with frames := s1.frames ++ res.2.2 }

/-- `atoms.pop(i)`: remove atom `i` from every per-atom array. -/
noncomputable def popAtom (f : Frame) (i : ℕ) : Frame :=
  { f with
    symbols := f.symbols.eraseIdx i
    positions := f.positions.eraseIdx i
    masses := f.masses.eraseIdx i
    colors := f.colors.map (fun cs => cs.eraseIdx i)
    radii := f.radii.map (fun rs => rs.eraseIdx i) }

/-- `for idx, atom_id in enumerate(sorted(atom_ids)): atoms.pop(atom_id - idx)`
(the second argument is the already-sorted id list, the third is `idx`). -/
noncomputable def popShifted : Frame → List ℕ → ℕ → Frame
  | a, [], _ => a
  | a, i :: rest, idx => popShifted (popAtom a (i - idx)) rest (idx + 1)

/-- `Delete.run`.  Note that `vis.append(atoms)` in the source sits *outside*
the `if len(atom_ids) == len(atoms)` branch, so in the all-selected branch the
empty structure *and* the untouched original are both appended. -/
noncomputable def deleteRun (s : VisState) : Except PyError VisState :=
  let atom_ids := s.selection
  let atoms := currentFrame s
  let s1 := truncFuture s
  if atom_ids.length = atoms.positions.length then
    Except.ok { s1 with
      frames := s1.frames ++ [emptyAtoms, atoms]
      selection := []
      step := s1.step + 1 }
  else
    let atoms2 := popShifted atoms (atom_ids.insertionSort (fun a b => a ≤ b)) 0
    let atoms3 := { atoms2 with connectivity := false }
    Except.ok { s1 with
      frames := s1.frames ++ [atoms3]
      selection := []
      step := s1.step + 1 }

/-- Validated configuration of `Translate`. -/
structure TranslateCfg where
  steps : ℕ

/-- `Translate.run`. -/
noncomputable def translateRun (cfg : TranslateCfg) (s : VisState) : Except PyError VisState :=
  let s1 := truncFuture s
  if cfg.steps > s1.segments.length then
    Except.error (PyError.valueError ("The number of steps must be less than the number of segments. You can add more points to increase the number of segments."))
  else
    let segments := s1.segments
    let atoms := currentFrame s1
    let appended := (List.range cfg.steps).map (fun idx =>
      let end_idx := (idx + 1) * (segments.length - 1) / cfg.steps
      let vector := segments.getD end_idx 0 - segments.getD 0 0
      { atoms with
        positions := atoms.positions.mapIdx
          (fun j p => if j ∈ s1.selection then p + vector else p) })
    Except.ok { s1 with frames := s1.frames ++ appended }

/-- `atoms += ase.Atom(sym, p)` (`Atoms.extend`): one atom appended; arrays
present on `atoms` but not on the new atom are padded (zero / empty string);
the new atom's mass comes from the element table. -/
noncomputable def extendAtom (massOf : String → ℝ) (a : Frame) (sym : String) (p : V3) : Frame :=
  { a with
    symbols := a.symbols ++ [sym]
    positions := a.positions ++ [p]
    masses := a.masses ++ [massOf sym]
    colors := a.colors.map (fun cs => cs ++ [""])
    radii := a.radii.map (fun rs => rs ++ [0]) }

/-- Validated configuration of `Duplicate`. -/
structure DupCfg where
  x : ℝ
  y : ℝ
  z : ℝ
  symbol : String

/-- The body of `Duplicate.run`'s `for atom_id in vis.selection` loop.  The
`del atoms.arrays["colors"]` / `del atoms.arrays["radii"]` statements are
inside the loop in the source, so a second iteration finds the keys already
deleted and raises `KeyError`. -/
noncomputable def duplicateLoop (massOf : String → ℝ) (cfg : DupCfg) :
    Frame → List ℕ → Except PyError Frame
  | atoms, [] => Except.ok atoms
  | atoms, atom_id :: rest =>
      let atom_sym := atoms.symbols.getD atom_id ("")
      let atom_pos := atoms.positions.getD atom_id 0 + (⟨cfg.x, cfg.y, cfg.z⟩ : V3)
      let new_sym := if cfg.symbol ≠ "X" then cfg.symbol else atom_sym
      let a1 := extendAtom massOf atoms new_sym atom_pos
      match a1.colors with
      | none => Except.error (PyError.keyError ("colors"))
      | some _ =>
          let a2 := { a1 with colors := none }
          match a2.radii with
          | none => Except.error (PyError.keyError ("radii"))
          | some _ => duplicateLoop massOf cfg { a2 with radii := none, connectivity := false } rest

/-- `Duplicate.run`. -/
noncomputable def duplicateRun (massOf : String → ℝ) (cfg : DupCfg) (s : VisState) :
    Except PyError VisState :=
  let atoms := currentFrame s
  let s1 := truncFuture s
  match duplicateLoop massOf cfg atoms s1.selection with
  | Except.error e => Except.error e
  | Except.ok atoms2 =>
      Except.ok { s1 with frames := s1.frames ++ [atoms2], selection := [] }

/-- `ChangeType.run`. -/
noncomputable def changeTypeRun (massOf : String → ℝ) (sym : String) (s : VisState) :
    Except PyError VisState :=
  let s1 := truncFuture s
  let atoms := currentFrame s1
  let atoms2 := s1.selection.foldl
    (fun a i => { a with symbols := a.symbols.set i sym, masses := a.masses.set i (massOf sym) })
    atoms
  match atoms2.colors with
  | none => Except.error (PyError.keyError ("colors"))
  | some _ =>
      match atoms2.radii with
      | none => Except.error (PyError.keyError ("radii"))
      | some _ =>
          Except.ok { s1 with
            frames := s1.frames ++ [{ atoms2 with colors := none, radii := none, connectivity := false }],
            selection := [] }

/-- `AddLineParticles.run`. -/
noncomputable def addLineParticlesRun (massOf : String → ℝ) (sym : String) (steps : ℕ)
    (s : VisState) : Except PyError VisState :=
  let s1 := truncFuture s
  let atoms := s1.points.foldl (fun a p => extendAtom massOf a sym p) (currentFrame s1)
  Except.ok { s1 with frames := s1.frames ++ List.replicate steps atoms }

/-- Scalar triple product: the determinant of the 3×3 matrix with the given
columns (used for Cramer-rule solution of the fractional-coordinate system). -/
noncomputable def det3 (a b c : V3) : ℝ := V3.dot a (V3.cross b c)

/-- `eps` default of `ase.geometry.wrap_positions`. -/
noncomputable def wrapEps : ℝ := 1 / 10000000

/-- Fractional coordinate wrapped into `[0, 1)` with the `eps` guard of
`ase.geometry.wrap_positions` (`center=0.5` default):
`f ↦ ((f + eps) mod 1) - eps`. -/
noncomputable def wrapCoord (f : ℝ) : ℝ := Int.fract (f + wrapEps) - wrapEps

/-- `ase.geometry.wrap_positions` on one point: solve for fractional
coordinates along the cell vectors (Cramer's rule; the cell is assumed
complete/nonsingular, as ASE's `cell.complete()` arranges), wrap the
coordinates of the periodic axes, map back. -/
noncomputable def wrap_position (cell : V3 × V3 × V3) (pbc : Bool × Bool × Bool) (p : V3) : V3 :=
  let c0 := cell.1
  let c1 := cell.2.1
  let c2 := cell.2.2
  let d := det3 c0 c1 c2
  let f0 := det3 p c1 c2 / d
  let f1 := det3 c0 p c2 / d
  let f2 := det3 c0 c1 p / d
  let g0 := if pbc.1 then wrapCoord f0 else f0
  let g1 := if pbc.2.1 then wrapCoord f1 else f1
  let g2 := if pbc.2.2 then wrapCoord f2 else f2
  g0 • c0 + g1 • c1 + g2 • c2

/-- `atoms.wrap()`: wrap every position into the cell. -/
noncomputable def wrapFrame (f : Frame) : Frame :=
  { f with positions := f.positions.map (wrap_position f.cell f.pbc) }

/-- Validated configuration of `Wrap`. -/
structure WrapCfg where
  recompute_bonds : Bool
  all : Bool

/-- The `for idx, atoms in enumerate(vis)` loop of `Wrap.run` with `all=True`:
wrap each frame, then `delattr(atoms, "connectivity")` — which raises
`AttributeError` when the attribute is absent. -/
noncomputable def wrapAllLoop (rb : Bool) : List Frame → Except PyError (List Frame)
  | [] => Except.ok []
  | f :: fs =>
      let f1 := wrapFrame f
      if rb then
        if f1.connectivity then
          Except.map (fun rest => { f1 with connectivity := false } :: rest) (wrapAllLoop rb fs)
        else Except.error (PyError.attributeError ("connectivity"))
      else Except.map (fun rest => f1 :: rest) (wrapAllLoop rb fs)

/-- `Wrap.run`. -/
noncomputable def wrapRun (cfg : WrapCfg) (s : VisState) : Except PyError VisState :=
  if cfg.all then
    match wrapAllLoop cfg.recompute_bonds s.frames with
    | Except.error e => Except.error e
    | Except.ok fs => Except.ok { s with frames := fs }
  else
    let atoms := wrapFrame (currentFrame s)
    if cfg.recompute_bonds then
      if atoms.connectivity then
        Except.ok { s with frames := s.frames.set s.step { atoms with connectivity := false } }
      else Except.error (PyError.attributeError ("connectivity"))
    else Except.ok { s with frames := s.frames.set s.step atoms }

/-- `atoms.get_center_of_mass()`: mass-weighted mean position. -/
noncomputable def centerOfMass (f : Frame) : V3 :=
  let total := f.masses.foldl (fun acc m => acc + m) 0
  (1 / total) • ((f.masses.zip f.positions).foldl (fun acc mp => acc + mp.1 • mp.2) 0)

/-- Validated configuration of `Center`. -/
structure CenterCfg where
  recompute_bonds : Bool
  dynamic : Bool
  wrap : Bool
  all : Bool

/-- Shift a frame so that `center` moves to the cell's half diagonal
(`np.diag(atoms.cell) / 2`), optionally wrapping afterwards. -/
noncomputable def centerFrame (doWrap : Bool) (center : V3) (f : Frame) : Frame :=
  let halfDiag : V3 := ⟨f.cell.1.x / 2, f.cell.2.1.y / 2, f.cell.2.2.z / 2⟩
  let f1 := { f with positions := f.positions.map (fun p => p - center + halfDiag) }
  if doWrap then wrapFrame f1 else f1

/-- The `for idx, atoms in enumerate(vis)` loop of `Center.run` with
`all=True` (per-frame centre when `dynamic`, the precomputed one otherwise);
`delattr(atoms, "connectivity")` is unguarded here as well. -/
noncomputable def centerAllLoop (dyn doWrap rb : Bool) (sel : List ℕ) (fixed : V3) :
    List Frame → Except PyError (List Frame)
  | [] => Except.ok []
  | f :: fs =>
      let center := if dyn then centerOfMass (subFrame sel f) else fixed
      let f1 := centerFrame doWrap center f
      if rb then
        if f1.connectivity then
          Except.map (fun rest => { f1 with connectivity := false } :: rest)
            (centerAllLoop dyn doWrap rb sel fixed fs)
        else Except.error (PyError.attributeError ("connectivity"))
      else Except.map (fun rest => f1 :: rest) (centerAllLoop dyn doWrap rb sel fixed fs)

/-- `Center.run` (with an empty selection it only logs and returns). -/
noncomputable def centerRun (cfg : CenterCfg) (s : VisState) : Except PyError VisState :=
  let selection := s.selection
  if selection.length < 1 then Except.ok s
  else if cfg.all then
    let fixed := if cfg.dynamic then (0 : V3)
      else centerOfMass (subFrame selection (currentFrame s))
    match centerAllLoop cfg.dynamic cfg.wrap cfg.recompute_bonds selection fixed s.frames with
    | Except.error e => Except.error e
    | Except.ok fs => Except.ok { s with frames := fs }
  else
    let atoms := currentFrame s
    let center := centerOfMass (subFrame selection atoms)
    let f1 := centerFrame cfg.wrap center atoms
    if cfg.recompute_bonds then
      if f1.connectivity then
        Except.ok { s with frames := s.frames.set s.step { f1 with connectivity := false } }
      else Except.error (PyError.attributeError ("connectivity"))
    else Except.ok { s with frames := s.frames.set s.step f1 }

/-- Validated configuration of `Replicate`. -/
structure RepCfg where
  x : ℕ
  y : ℕ
  z : ℕ
  keep_box : Bool
  all : Bool

/-- `atoms.repeat((nx, ny, nz))`: periodic tiling — one block of the original
atoms per integer offset `(i, j, k)` (lexicographic), every per-atom array
tiled alike, the cell scaled; the result is a fresh object, so the dynamic
`connectivity` attribute is not carried over. -/
noncomputable def repeatFrame (nx ny nz : ℕ) (f : Frame) : Frame :=
  let offs := (List.range nx).flatMap (fun i =>
    (List.range ny).flatMap (fun j => (List.range nz).map (fun k => (i, j, k))))
  { symbols := offs.flatMap (fun _ => f.symbols)
    positions := offs.flatMap (fun t => f.positions.map (fun p =>
      p + (t.1 : ℝ) • f.cell.1 + (t.2.1 : ℝ) • f.cell.2.1 + (t.2.2 : ℝ) • f.cell.2.2))
    masses := offs.flatMap (fun _ => f.masses)
    cell := ((nx : ℝ) • f.cell.1, (ny : ℝ) • f.cell.2.1, (nz : ℝ) • f.cell.2.2)
    pbc := f.pbc
    colors := f.colors.map (fun cs => offs.flatMap (fun _ => cs))
    radii := f.radii.map (fun rs => offs.flatMap (fun _ => rs))
    connectivity := false }

/-- `Replicate.run`. -/
noncomputable def replicateRun (cfg : RepCfg) (s : VisState) : Except PyError VisState :=
  if cfg.all then
    Except.ok { s with frames := s.frames.map (fun f0 =>
      let f1 := repeatFrame cfg.x cfg.y cfg.z f0
      if cfg.keep_box then { f1 with cell := f0.cell } else f1) }
  else
    let atoms0 := currentFrame s
    let f1 := repeatFrame cfg.x cfg.y cfg.z atoms0
    let f2 := if cfg.keep_box then { f1 with cell := atoms0.cell } else f1
    Except.ok { s with frames := s.frames.set s.step f2 }

/-- `Connect.run`: project one new point per selected atom from the atom's
position towards the camera, offset by the atom's stored radius; accessing
`atoms.arrays["radii"]` raises `KeyError` when the array is absent. -/
noncomputable def connectRun (s : VisState) : Except PyError VisState :=
  let atoms := currentFrame s
  match atoms.radii with
  | none => Except.error (PyError.keyError ("radii"))
  | some rs =>
      let camera_position := s.camera.1
      let new_points := s.selection.map (fun i =>
        let p := atoms.positions.getD i 0
        let r := rs.getD i 0
        p + r • V3.normalize (camera_position - p))
      Except.ok { s with points := new_points, selection := [] }

/-- `NewCanvas.run`. -/
noncomputable def newCanvasRun (s : VisState) : Except PyError VisState :=
  let s1 := { s with frames := s.frames.take (s.step + 1), points := [] }
  let frames2 := s1.frames ++ [emptyAtoms]
  let stp := frames2.length - 1
  Except.ok { s1 with
    frames := frames2
    selection := []
    step := stp
    bookmarks := insertBookmark s1.bookmarks stp ("New Scene")
    camera := ((⟨0, 0, -15⟩ : V3), (⟨0, 0, 0⟩ : V3))
    geometries := [{ position := 0, rotation := 0, scale := ⟨1, 1, 1⟩, width := 10, height := 10 }] }

/-- `RemoveAtoms.run`: `del vis[vis.step]`. -/
noncomputable def removeAtomsRun (s : VisState) : Except PyError VisState :=
  Except.ok { s with frames := s.frames.eraseIdx s.step }

/-- Configuration of `Model` (workflow discriminator, optional service
address, and the nested `RunType`'s discriminator used in the bookmark). -/
structure ModelCfg where
  discriminator : String
  client_address : Option String
  run_type_discriminator : String

/-- `RunType.run`: the body is `pass` (the sketched implementation is
commented out in the source), so it returns without touching the state. -/
noncomputable def runTypeRun (s : VisState) : Except PyError VisState := Except.ok s

/-- `Model.run` (`calculators` is `kwargs["calculators"]`). -/
noncomputable def modelRun (cfg : ModelCfg) (calculators : Option Unit) (s : VisState) :
    Except PyError VisState :=
  let s1 := truncFuture s
  match calculators with
  | none => Except.error (PyError.valueError ("No calculators provided"))
  | some _ =>
      let s2 := { s1 with
        bookmarks := insertBookmark s1.bookmarks s1.step ("Running " ++ cfg.run_type_discriminator) }
      runTypeRun s2

/-- The library of edit modifiers (`methods` union in the source), each
carrying its validated configuration. -/
inductive Modif where
  | connect
  | rotate (cfg : RotateCfg)
  | delete
  | translate (cfg : TranslateCfg)
  | duplicate (cfg : DupCfg)
  | changeType (sym : String)
  | addLineParticles (sym : String) (steps : ℕ)
  | wrap (cfg : WrapCfg)
  | center (cfg : CenterCfg)
  | replicate (cfg : RepCfg)
  | newCanvas
  | removeAtoms
  | model (cfg : ModelCfg) (calculators : Option Unit)

/-- Dispatch `method.run(vis)` over the modifier library (`massOf` is the
external element→mass table used when new atoms are created). -/
noncomputable def runModifier (massOf : String → ℝ) : Modif → VisState → Except PyError VisState
  | Modif.connect, s => connectRun s
  | Modif.rotate cfg, s => rotateRun cfg s
  | Modif.delete, s => deleteRun s
  | Modif.translate cfg, s => translateRun cfg s
  | Modif.duplicate cfg, s => duplicateRun massOf cfg s
  | Modif.changeType sym, s => changeTypeRun massOf sym s
  | Modif.addLineParticles sym steps, s => addLineParticlesRun massOf sym steps s
  | Modif.wrap cfg, s => wrapRun cfg s
  | Modif.center cfg, s => centerRun cfg s
  | Modif.replicate cfg, s => replicateRun cfg s
  | Modif.newCanvas, s => newCanvasRun s
  | Modif.removeAtoms, s => removeAtomsRun s
  | Modif.model cfg cs, s => modelRun cfg cs s

/-- The modifiers whose `run` starts with `del vis[vis.step + 1:]` (the
"forward-branch" truncation). -/
def Modif.truncates : Modif → Prop
  | Modif.rotate _ => True
  | Modif.delete => True
  | Modif.translate _ => True
  | Modif.duplicate _ => True
  | Modif.changeType _ => True
  | Modif.addLineParticles _ _ => True
  | Modif.newCanvas => True
  | Modif.model _ _ => True
  | _ => False

/-! ## The bond/frame render-data service (`zndraw.tools.data`) -/

/-- A structure as the data service sees it (`ase.Atoms` fetched from
`shared.config.get_atoms`): atomic numbers, positions, cell, and the
periodicity flag the service overwrites. -/
structure DAtoms where
  numbers : List ℕ
  positions : List V3
  cell : V3 × V3 × V3
  pbc : Bool

/-- Skin parameter of `ase.neighborlist.NeighborList` (default `0.3`), added
to each per-element cutoff. -/
noncomputable def nlSkin : ℝ := 3 / 10

open Classical in
/-- Neighbour criterion of `build_neighbor_list` on a non-periodic structure:
two distinct atoms are bonded when their distance is below the sum of their
(element-derived) cutoff radii, each enlarged by the skin. -/
noncomputable def bondedB (cutoff : ℕ → ℝ) (a : DAtoms) (i j : ℕ) : Bool :=
  if V3.normSq (a.positions.getD i 0 - a.positions.getD j 0) <
      ((cutoff (a.numbers.getD i 0) + nlSkin) + (cutoff (a.numbers.getD j 0) + nlSkin)) ^ 2
  then true else false

/-- `ASEComputeBonds.get_bonds`: sets `atoms.pbc = False` on its argument,
builds the neighbour list, and returns the undirected edge list (pairs
`(i, j)` with `i < j`, no self-pairs).  The returned first component is the
argument as the caller sees it after the call (the `pbc` write is an in-place
mutation of the caller's object). -/
noncomputable def get_bonds (cutoff : ℕ → ℝ) (atoms : DAtoms) : DAtoms × List (ℕ × ℕ) :=
  let atoms1 := { atoms with pbc := false }
  let n := atoms1.positions.length
  let edges := (List.range n).flatMap (fun i =>
    ((List.range n).filter (fun j => decide (i < j) && bondedB cutoff atoms1 i j)).map
      (fun j => (i, j)))
  (atoms1, edges)

/-- Truncation toward zero, `np.array(..., dtype=int)` / Python `int(...)`. -/
def pyIntTrunc (q : ℚ) : ℤ := if q < 0 then -(⌊-q⌋) else ⌊q⌋

/-- Python 3 `round` on a rational: nearest integer, ties to the even one. -/
def pyRound (q : ℚ) : ℤ :=
  let f := ⌊q⌋
  let r := q - f
  if r < 1 / 2 then f
  else if 1 / 2 < r then f + 1
  else if f % 2 = 0 then f else f + 1

/-- One lowercase hex digit. -/
def hexDigit (n : ℕ) : Char :=
  if n < 10 then Char.ofNat (48 + n) else Char.ofNat (87 + n)

/-- `"%02x"` of a value in `[0, 255]`. -/
def hex2 (n : ℕ) : String := String.mk [hexDigit (n / 16 % 16), hexDigit (n % 16)]

/-- `_rgb2hex(data)`: `r, g, b = np.array(data * 255, dtype=int)` (truncation!)
then `"#%02x%02x%02x" % (r, g, b)`.  Reference colours are unit-interval
rationals. -/
def _rgb2hex (data : ℚ × ℚ × ℚ) : String :=
  "#" ++ hex2 (pyIntTrunc (data.1 * 255)).toNat
      ++ hex2 (pyIntTrunc (data.2.1 * 255)).toNat
      ++ hex2 (pyIntTrunc (data.2.2 * 255)).toNat

/-- The spec's colour formula, word for word: `"#%02x%02x%02x"` formatted with
`round(r*255), round(g*255), round(b*255)` (Python `round`, ties to even). -/
def specHexRound (data : ℚ × ℚ × ℚ) : String :=
  "#" ++ String.join ([data.1, data.2.1, data.2.2].map
    (fun q => hex2 (pyRound (q * 255)).toNat))

/-- The amended colour formula: as `specHexRound` but with truncation toward
zero in place of rounding, which is what `dtype=int` does. -/
def specHexTrunc (data : ℚ × ℚ × ℚ) : String :=
  "#" ++ String.join ([data.1, data.2.1, data.2.2].map
    (fun q => hex2 (pyIntTrunc (q * 255)).toNat))

/-- Radius formula of `get_frame`: `0.25 * (2 - np.exp(-0.2 * atom.number))`. -/
noncomputable def particleRadius (z : ℕ) : ℝ := 0.25 * (2 - Real.exp (-0.2 * (z : ℝ)))

/-- One particle record of the render frame. -/
structure RParticle where
  id : ℕ
  x : ℝ
  y : ℝ
  z : ℝ
  color : String
  radius : ℝ

/-- The render-frame record returned by `get_frame`. -/
structure RenderFrame where
  particles : List RParticle
  bonds : List (ℕ × ℕ)

/-- `ASEComputeBonds.get_frame(step)`: fetch the structure for `step` from the
shared config store (`getAtoms`, an external collaborator), emit one particle
record per atom in order (id = enumeration index, position, hex colour from
the per-element reference table `jmol`, radius from `particleRadius`) plus the
bond list of `get_bonds`. -/
noncomputable def get_frame (getAtoms : ℕ → DAtoms) (jmol : ℕ → ℚ × ℚ × ℚ)
    (cutoff : ℕ → ℝ) (step : ℕ) : RenderFrame :=
  let atoms := getAtoms step
  { particles := (atoms.numbers.zip atoms.positions).mapIdx (fun idx a =>
      { id := idx, x := a.2.x, y := a.2.y, z := a.2.z,
        color := _rgb2hex (jmol a.1), radius := particleRadius a.1 })
    bonds := (get_bonds cutoff atoms).2 }

/-! ## Shared concrete inputs for witnesses and counterexamples -/

/-- A one-atom hydrogen frame without auxiliary arrays or connectivity. -/
noncomputable def frameH : Frame :=
  { symbols := ["H"], positions := [⟨0, 0, 0⟩], masses := [1], cell := (0, 0, 0),
    pbc := (false, false, false), colors := none, radii := none, connectivity := false }

/-- A zero-atom frame carrying a (vacuous) radii array. -/
noncomputable def frameEmptyRad : Frame :=
  { symbols := [], positions := [], masses := [], cell := (0, 0, 0),
    pbc := (false, false, false), colors := none, radii := some [], connectivity := false }

/-- A zero-atom frame carrying a connectivity attribute. -/
noncomputable def frameConn : Frame :=
  { symbols := [], positions := [], masses := [], cell := (0, 0, 0),
    pbc := (false, false, false), colors := none, radii := none, connectivity := true }

/-- A two-atom frame with colour and radius arrays present. -/
noncomputable def frameOH : Frame :=
  { symbols := ["O", "H"], positions := [⟨0, 0, 0⟩, ⟨1, 0, 0⟩], masses := [16, 1],
    cell := (0, 0, 0), pbc := (false, false, false),
    colors := some ["c0", "c1"], radii := some [1, 1], connectivity := false }

/-! ## Claim C7 -/

/-- Claim C7 counterexample: at the unit-interval reference triple
`(0.9, 0, 0)` the code's conversion truncates `229.5` to `229` (`"#e50000"`),
while the claimed `round`-based formula yields `230` (`"#e60000"`). -/
theorem rgb2hex_round_counterexample :
    _rgb2hex ((9 : ℚ) / 10, 0, 0) = "#e50000" ∧
    specHexRound ((9 : ℚ) / 10, 0, 0) = "#e60000" ∧
    _rgb2hex ((9 : ℚ) / 10, 0, 0) ≠ specHexRound ((9 : ℚ) / 10, 0, 0) := by
  have hf : (⌊(9 : ℚ) / 10 * 255⌋ : ℤ) = 229 := by norm_num [Int.floor_eq_iff]
  have ht : pyIntTrunc ((9 : ℚ) / 10 * 255) = 229 := by
    rw [pyIntTrunc, if_neg (by norm_num)]
    exact hf
  have h0 : pyIntTrunc ((0 : ℚ) * 255) = 0 := by
    rw [pyIntTrunc, if_neg (by norm_num)]
    norm_num
  have hr : pyRound ((9 : ℚ) / 10 * 255) = 230 := by
    simp only [pyRound, hf]
    norm_num
  have hr0 : pyRound ((0 : ℚ) * 255) = 0 := by
    simp only [pyRound]
    norm_num
  have e1 : _rgb2hex ((9 : ℚ) / 10, 0, 0) = "#e50000" := by
    simp only [_rgb2hex, ht, h0]
    rfl
  have e2 : specHexRound ((9 : ℚ) / 10, 0, 0) = "#e60000" := by
    simp only [specHexRound, List.map_cons, List.map_nil, hr, hr0]
    rfl
  refine ⟨e1, e2, ?_⟩
  rw [e1, e2]
  decide

/-- Claim C7 (amended): for every reference colour triple with components in
the unit interval, `_rgb2hex` returns `"#%02x%02x%02x"` formatted with the
*truncation toward zero* of `r*255`, `g*255`, `b*255` (not `round`); applied
to `(0, 0, 1)` it yields `"#0000ff"`. -/
theorem rgb2hex_trunc_spec (r g b : ℚ) (hr0 : 0 ≤ r) (hr1 : r ≤ 1) (hg0 : 0 ≤ g)
    (hg1 : g ≤ 1) (hb0 : 0 ≤ b) (hb1 : b ≤ 1) :
    _rgb2hex (r, g, b) = specHexTrunc (r, g, b) ∧ _rgb2hex (0, 0, 1) = "#0000ff" := by
  constructor
  · simp [_rgb2hex, specHexTrunc, String.join, String.append_assoc]
  · have h0 : pyIntTrunc ((0 : ℚ) * 255) = 0 := by
      rw [pyIntTrunc, if_neg (by norm_num)]
      norm_num
    have h1 : pyIntTrunc ((1 : ℚ) * 255) = 255 := by
      rw [pyIntTrunc, if_neg (by norm_num)]
      norm_num [Int.floor_eq_iff]
    simp only [_rgb2hex, h0, h1]
    rfl

/-- Witness for `rgb2hex_trunc_spec` at the concrete triple `(1/2, 0, 1)`. -/
theorem rgb2hex_trunc_spec_witness :
    _rgb2hex ((1 : ℚ) / 2, 0, 1) = specHexTrunc ((1 : ℚ) / 2, 0, 1) ∧
    _rgb2hex (0, 0, 1) = "#0000ff" :=
  rgb2hex_trunc_spec ((1 : ℚ) / 2) 0 1 (by norm_num) (by norm_num) (by norm_num)
    (by norm_num) (by norm_num) (by norm_num)

/-! ## Small projection lemmas -/

@[simp] theorem truncFuture_step (s : VisState) : (truncFuture s).step = s.step := rfl

@[simp] theorem truncFuture_points (s : VisState) : (truncFuture s).points = s.points := rfl

@[simp] theorem truncFuture_selection (s : VisState) : (truncFuture s).selection = s.selection := rfl

@[simp] theorem truncFuture_segments (s : VisState) : (truncFuture s).segments = s.segments := rfl

@[simp] theorem truncFuture_frames (s : VisState) :
    (truncFuture s).frames = s.frames.take (s.step + 1) := rfl

@[simp] theorem wrapFrame_connectivity (f : Frame) : (wrapFrame f).connectivity = f.connectivity := rfl

/-! ## Claim C3 -/

/-- Claim C3: each of the three structural preconditions raises its error
(`ValueError`, the spec's "InvalidInput") synchronously from within `run` and
only when the precondition fails: `Rotate.run` errs iff the placed-point count
is not exactly 2, `Translate.run` errs iff the configured steps exceed the
number of path segments, and `Model.run` errs iff the calculator registry is
absent — in that case with message "No calculators provided". -/
theorem preconditions_raise_iff :
    (∀ (cfg : RotateCfg) (s : VisState),
        (∃ e, rotateRun cfg s = Except.error e) ↔ s.points.length ≠ 2) ∧
    (∀ (cfg : TranslateCfg) (s : VisState),
        (∃ e, translateRun cfg s = Except.error e) ↔ cfg.steps > s.segments.length) ∧
    (∀ (cfg : ModelCfg) (cs : Option Unit) (s : VisState),
        (∃ e, modelRun cfg cs s = Except.error e) ↔ cs = none) ∧
    (∀ (cfg : ModelCfg) (s : VisState),
        modelRun cfg none s = Except.error (PyError.valueError ("No calculators provided"))) := by
  refine ⟨?_, ?_, ?_, ?_⟩
  · intro cfg s
    simp only [rotateRun, truncFuture_points]
    by_cases h : s.points.length ≠ 2
    · rw [if_pos h]
      simp [h]
    · rw [if_neg h]
      simp [h]
  · intro cfg s
    simp only [translateRun, truncFuture_segments]
    by_cases h : cfg.steps > s.segments.length
    · rw [if_pos h]
      simp [h]
    · rw [if_neg h]
      simp [h]
  · intro cfg cs s
    cases cs with
    | none => simp [modelRun]
    | some u => simp [modelRun, runTypeRun]
  · intro cfg s
    simp [modelRun]

/-! ## Claim C5 -/

/-- A periodic structure (the input that refutes the purity claim). -/
noncomputable def pbcAtoms : DAtoms :=
  { numbers := [], positions := [], cell := (0, 0, 0), pbc := true }

/-- Claim C5 counterexample: `get_bonds` is *not* pure with respect to its
input — on a structure with the periodicity flag set, the flag is `False`
after the call (`atoms.pbc = False` mutates the caller's object and is never
restored). -/
theorem get_bonds_mutates_input :
    (get_bonds (fun _ => 1) pbcAtoms).1 ≠ pbcAtoms ∧
    (get_bonds (fun _ => 1) pbcAtoms).1.pbc = false ∧ pbcAtoms.pbc = true := by
  refine ⟨?_, rfl, rfl⟩
  intro h
  have hp := congrArg DAtoms.pbc h
  simp [get_bonds, pbcAtoms] at hp

/-- Claim C5 (amended): `get_bonds` leaves positions, species and cell
unchanged and is deterministic, but it sets the structure's periodicity flag
to `False`; it acts as the identity on the structure only when the flag was
already `False`, and a second call (on the structure it just mutated) returns
the same edge list. -/
theorem get_bonds_effect (cutoff : ℕ → ℝ) (a : DAtoms) :
    (get_bonds cutoff a).1 = { a with pbc := false } ∧
    ((get_bonds cutoff a).1.positions = a.positions ∧
      (get_bonds cutoff a).1.numbers = a.numbers ∧
      (get_bonds cutoff a).1.cell = a.cell) ∧
    (a.pbc = false → (get_bonds cutoff a).1 = a) ∧
    (get_bonds cutoff ((get_bonds cutoff a).1)).2 = (get_bonds cutoff a).2 := by
  refine ⟨rfl, ⟨rfl, rfl, rfl⟩, ?_, rfl⟩
  intro h
  obtain ⟨ns, ps, cl, pb⟩ := a
  simp only at h
  subst h
  rfl

/-- Witness for `get_bonds_effect`: on a concrete non-periodic structure the
call returns the structure unchanged. -/
theorem get_bonds_effect_witness :
    (get_bonds (fun _ => 1)
        { numbers := [1], positions := [⟨0, 0, 0⟩], cell := (0, 0, 0), pbc := false }).1 =
      { numbers := [1], positions := [⟨0, 0, 0⟩], cell := (0, 0, 0), pbc := false } :=
  (get_bonds_effect (fun _ => 1) _).2.2.1 rfl

/-! ## Claim C1 -/

/-- The state of claim C1's failing input: one frame of one atom, all of it
selected. -/
noncomputable def deleteAllState : VisState :=
  { frames := [frameH], step := 0, selection := [0], points := [], segments := [],
    camera := (0, 0), bookmarks := [], geometries := [] }

/-- Claim C1 (code bug): when the selection covers every atom, `Delete.run`
appends the empty structure *and then also the untouched original* (the final
`vis.append(atoms)` sits outside the `if/else`), so two frames are appended
and the trajectory's final frame still holds all the original atoms instead
of being empty; `step`, advanced by one, points at the empty frame with a
stale frame after it. -/
theorem delete_all_selected_appends_stale_frame :
    deleteRun deleteAllState = Except.ok { deleteAllState with
      frames := [frameH, emptyAtoms, frameH], selection := [], step := 1 } ∧
    [frameH, emptyAtoms, frameH].getLast? = some frameH ∧
    frameH ≠ emptyAtoms ∧ frameH.positions.length = 1 := by
  refine ⟨rfl, rfl, ?_, rfl⟩
  intro h
  have hs := congrArg Frame.symbols h
  simp [frameH, emptyAtoms] at hs

/-! ## Claim C9 -/

/-- The generic-placeholder duplicate configuration. -/
noncomputable def dupCfgX : DupCfg := { x := 1 / 2, y := 1 / 2, z := 1 / 2, symbol := "X" }

/-- The state of claim C9's failing input: a frame with colour/radius arrays
present and two selected atoms. -/
noncomputable def duplicateTwoState : VisState :=
  { frames := [frameOH], step := 0, selection := [0, 1], points := [], segments := [],
    camera := (0, 0), bookmarks := [], geometries := [] }

/-- Claim C9 (code bug): `del atoms.arrays["colors"]` / `["radii"]` sit inside
the per-selected-atom loop, so with two (or more) selected atoms the second
iteration finds the keys already deleted and `Duplicate.run` raises `KeyError`
instead of duplicating every selected atom. -/
theorem duplicate_two_selected_raises :
    duplicateRun (fun _ => 1) dupCfgX duplicateTwoState =
      Except.error (PyError.keyError ("colors")) ∧
    duplicateTwoState.selection.length = 2 := ⟨rfl, rfl⟩

/-! ## Claim C6 -/

/-- A state whose current frame has no connectivity attribute. -/
noncomputable def wrapNoConnState : VisState :=
  { frames := [frameH], step := 0, selection := [], points := [], segments := [],
    camera := (0, 0), bookmarks := [], geometries := [] }

/-- Claim C6 counterexample: on a current structure that carries no
connectivity attribute, `Wrap.run` with `recompute_bonds=True` does *not*
complete — the unguarded `delattr(atoms, "connectivity")` raises
`AttributeError`. -/
theorem wrap_without_connectivity_raises :
    wrapRun { recompute_bonds := true, all := false } wrapNoConnState =
      Except.error (PyError.attributeError ("connectivity")) := rfl

/-- Claim C6 (amended): with `recompute_bonds=True`, `Wrap.run` wraps the
positions into the cell and stores back a frame with no connectivity
attribute exactly when the current structure carries the attribute; when the
attribute is absent, the attribute-removal step raises `AttributeError`. -/
theorem wrap_run_spec (s : VisState) :
    ((currentFrame s).connectivity = true →
      wrapRun { recompute_bonds := true, all := false } s =
        Except.ok { s with frames := s.frames.set s.step
                              { wrapFrame (currentFrame s) with connectivity := false } } ∧
      ({ wrapFrame (currentFrame s) with connectivity := false } : Frame).connectivity = false ∧
      ({ wrapFrame (currentFrame s) with connectivity := false } : Frame).positions =
        (currentFrame s).positions.map (wrap_position (currentFrame s).cell (currentFrame s).pbc)) ∧
    ((currentFrame s).connectivity = false →
      wrapRun { recompute_bonds := true, all := false } s =
        Except.error (PyError.attributeError ("connectivity"))) := by
  constructor
  · intro h
    refine ⟨?_, rfl, rfl⟩
    simp only [wrapRun, Bool.false_eq_true, if_false, wrapFrame_connectivity, h, if_true]
  · intro h
    simp only [wrapRun, Bool.false_eq_true, if_false, wrapFrame_connectivity, h]
    rfl

/-- A state whose current frame carries a connectivity attribute. -/
noncomputable def wrapConnState : VisState :=
  { frames := [frameConn], step := 0, selection := [], points := [], segments := [],
    camera := (0, 0), bookmarks := [], geometries := [] }

/-- Witness for `wrap_run_spec` at a concrete connectivity-carrying state. -/
theorem wrap_run_spec_witness :
    wrapRun { recompute_bonds := true, all := false } wrapConnState =
      Except.ok { wrapConnState with
                    frames := wrapConnState.frames.set wrapConnState.step
                      { wrapFrame (currentFrame wrapConnState) with connectivity := false } } :=
  ((wrap_run_spec wrapConnState).1 rfl).1

/-! ## Claim C2 -/

/-- The loop of `Rotate.run` only appends to the accumulated frame list. -/
theorem rotateLoop_acc_grows (inc : ℝ) (v c : V3) (ids : List ℕ) :
    ∀ (n : ℕ) (sp : List V3) (atoms : Frame) (acc : List Frame),
      ∃ t, (rotateLoop inc v c ids n (sp, atoms, acc)).2.2 = acc ++ t := by
  intro n
  induction n with
  | zero =>
      intro sp atoms acc
      exact ⟨[], by simp [rotateLoop]⟩
  | succ k ih =>
      intro sp atoms acc
      simp only [rotateLoop]
      obtain ⟨t, ht⟩ := ih (sp.map (rotatePoint inc v c))
        { atoms with positions := scatter atoms.positions ids (sp.map (rotatePoint inc v c)) }
        (acc ++ [{ atoms with positions := scatter atoms.positions ids (sp.map (rotatePoint inc v c)) }])
      refine ⟨[{ atoms with positions := scatter atoms.positions ids (sp.map (rotatePoint inc v c)) }] ++ t, ?_⟩
      rw [ht, List.append_assoc]

/-- A two-frame state sitting at step 0 (so frame 1 is a stale future frame),
with an empty selection and a radii array present. -/
noncomputable def connectCexState : VisState :=
  { frames := [frameEmptyRad, frameH], step := 0, selection := [], points := [], segments := [],
    camera := (0, 0), bookmarks := [], geometries := [] }

/-- Claim C2 counterexample: `Connect.run` performs no forward-branch
truncation at all — on a state with a stale frame beyond the current step the
run succeeds and that future frame is still in the trajectory afterwards
(`Wrap`, `Center`, `Replicate` and `RemoveAtoms` likewise never truncate). -/
theorem connect_keeps_future_frames :
    runModifier (fun _ => 1) Modif.connect connectCexState =
      Except.ok { connectCexState with points := [], selection := [] } ∧
    connectCexState.step = 0 ∧
    ({ connectCexState with points := [], selection := [] } : VisState).frames.getD 1 emptyAtoms
      = frameH := ⟨rfl, rfl, rfl⟩

/-- Claim C2 (amended): the forward-branch invariant holds exactly for the
modifiers that start with `del vis[vis.step + 1:]` — Rotate, Delete,
Translate, Duplicate, ChangeType, AddLineParticles, NewCanvas and Model: on
success the resulting trajectory is the old one truncated to the current step
followed only by newly produced frames.  Connect, Wrap, Center, Replicate and
RemoveAtoms do not discard future frames (see the counterexample). -/
theorem forward_branch_appending_modifiers (massOf : String → ℝ) (m : Modif) (s s' : VisState)
    (hm : m.truncates) (hrun : runModifier massOf m s = Except.ok s') :
    ∃ t, s'.frames = s.frames.take (s.step + 1) ++ t := by
  cases m with
  | connect => exact absurd hm (by simp [Modif.truncates])
  | wrap cfg => exact absurd hm (by simp [Modif.truncates])
  | center cfg => exact absurd hm (by simp [Modif.truncates])
  | replicate cfg => exact absurd hm (by simp [Modif.truncates])
  | removeAtoms => exact absurd hm (by simp [Modif.truncates])
  | rotate cfg =>
      simp only [runModifier, rotateRun] at hrun
      split at hrun
      · exact absurd hrun (by simp)
      · simp only [Except.ok.injEq] at hrun
        subst hrun
        exact ⟨_, rfl⟩
  | delete =>
      simp only [runModifier, deleteRun] at hrun
      split at hrun <;>
        · simp only [Except.ok.injEq] at hrun
          subst hrun
          exact ⟨_, rfl⟩
  | translate cfg =>
      simp only [runModifier, translateRun] at hrun
      split at hrun
      · exact absurd hrun (by simp)
      · simp only [Except.ok.injEq] at hrun
        subst hrun
        exact ⟨_, rfl⟩
  | duplicate cfg =>
      simp only [runModifier, duplicateRun] at hrun
      split at hrun
      · exact absurd hrun (by simp)
      · simp only [Except.ok.injEq] at hrun
        subst hrun
        exact ⟨_, rfl⟩
  | changeType sym =>
      simp only [runModifier, changeTypeRun] at hrun
      split at hrun
      · exact absurd hrun (by simp)
      · split at hrun
        · exact absurd hrun (by simp)
        · simp only [Except.ok.injEq] at hrun
          subst hrun
          exact ⟨_, rfl⟩
  | addLineParticles sym steps =>
      simp only [runModifier, addLineParticlesRun, Except.ok.injEq] at hrun
      subst hrun
      exact ⟨_, rfl⟩
  | newCanvas =>
      simp only [runModifier, newCanvasRun, Except.ok.injEq] at hrun
      subst hrun
      exact ⟨[emptyAtoms], rfl⟩
  | model cfg cs =>
      cases cs with
      | none => exact absurd hrun (by simp [runModifier, modelRun])
      | some u =>
          simp only [runModifier, modelRun, runTypeRun, Except.ok.injEq] at hrun
          subst hrun
          exact ⟨[], by simp [truncFuture]⟩

/-- A concrete two-frame state for the forward-branch witness. -/
noncomputable def c2WitnessState : VisState :=
  { frames := [frameH, frameH], step := 0, selection := [], points := [], segments := [],
    camera := (0, 0), bookmarks := [], geometries := [] }

/-- Witness for `forward_branch_appending_modifiers`: `Delete` run at a
concrete two-frame state discards the stale second frame. -/
theorem forward_branch_witness :
    ∃ t, ({ c2WitnessState with
              frames := [frameH, { frameH with connectivity := false }]
              selection := []
              step := 1 } : VisState).frames =
      c2WitnessState.frames.take (c2WitnessState.step + 1) ++ t :=
  forward_branch_appending_modifiers (fun _ => 1) Modif.delete c2WitnessState
    { c2WitnessState with
        frames := [frameH, { frameH with connectivity := false }]
        selection := []
        step := 1 }
    trivial rfl

/-! ## Claim C8 -/

/-- Truncating the future does not change the frame at the active step. -/
theorem currentFrame_truncFuture (s : VisState) (hstep : s.step < s.frames.length) :
    currentFrame (truncFuture s) = currentFrame s := by
  simp only [currentFrame, truncFuture]
  rw [List.getD_eq_getElem?_getD, List.getD_eq_getElem?_getD, List.getElem?_take]
  simp

/-- Claim C8: under `S ≤ L` (and a valid step), `Translate.run` appends
exactly `S` frames, each a full copy of the current structure in which
precisely the selected atoms are shifted by
`segments[int((i+1)*(L-1)/S)] - segments[0]`; at the last appended frame the
segment index is exactly `L - 1`, so the displacement is
`segments[L-1] - segments[0]`. -/
theorem translate_run_spec (cfg : TranslateCfg) (s : VisState)
    (hone : 1 ≤ cfg.steps) (hSL : cfg.steps ≤ s.segments.length)
    (hstep : s.step < s.frames.length) :
    ∃ appended : List Frame,
      translateRun cfg s = Except.ok { s with frames := s.frames.take (s.step + 1) ++ appended } ∧
      appended.length = cfg.steps ∧
      (∀ i, i < cfg.steps →
        appended.get? i = some { currentFrame s with
          positions := (currentFrame s).positions.mapIdx (fun j p =>
            if j ∈ s.selection then
              p + (s.segments.getD ((i + 1) * (s.segments.length - 1) / cfg.steps) 0 -
                   s.segments.getD 0 0)
            else p) }) ∧
      (cfg.steps - 1 + 1) * (s.segments.length - 1) / cfg.steps = s.segments.length - 1 := by
  have hcur : currentFrame (truncFuture s) = currentFrame s := currentFrame_truncFuture s hstep
  refine ⟨(List.range cfg.steps).map (fun idx =>
      { currentFrame s with positions := (currentFrame s).positions.mapIdx (fun j p =>
          if j ∈ s.selection then
            p + (s.segments.getD ((idx + 1) * (s.segments.length - 1) / cfg.steps) 0 -
                 s.segments.getD 0 0)
          else p) }), ?_, ?_, ?_, ?_⟩
  · simp only [translateRun]
    rw [if_neg (by simpa using not_lt.mpr hSL), hcur]
    rfl
  · simp
  · intro i hi
    rw [List.get?_map, List.get?_range hi]
    rfl
  · rw [Nat.sub_add_cancel hone]
    exact Nat.mul_div_cancel_left _ hone

/-- The concrete state of the `Translate` witness: a one-frame trajectory
with one selected atom and a two-point segment path. -/
noncomputable def translateWitState : VisState :=
  { frames := [frameOH], step := 0, selection := [0], points := [],
    segments := [⟨0, 0, 0⟩, ⟨1, 0, 0⟩], camera := (0, 0), bookmarks := [],
    geometries := [] }

/-- Witness for `translate_run_spec` at a concrete state: one step along a
two-segment path. -/
theorem translate_run_spec_witness :
    ∃ appended : List Frame,
      translateRun { steps := 1 } translateWitState =
        Except.ok { translateWitState with frames := translateWitState.frames.take 1 ++ appended } ∧
      appended.length = 1 := by
  obtain ⟨ap, h1, h2, _, _⟩ := translate_run_spec { steps := 1 } translateWitState
    (by norm_num) (by norm_num [translateWitState]) (by norm_num [translateWitState])
  exact ⟨ap, h1, h2⟩

/-! ## Claim C10 -/

/-- `get?` through `mapIdx`. -/
theorem mapIdx_get? {α : Type _} {β : Type _} :
    ∀ (l : List α) (f : ℕ → α → β) (k : ℕ),
      (l.mapIdx f).get? k = (l.get? k).map (fun a => f k a) := by
  intro l
  induction l with
  | nil => intro f k; simp
  | cons a l ih =>
      intro f k
      cases k with
      | zero => simp [List.mapIdx_cons]
      | succ k => simp [List.mapIdx_cons, ih]

/-- `get?` through `zip`, with in-range defaults. -/
theorem zip_get?_getD {α : Type _} {β : Type _} (d1 : α) (d2 : β) :
    ∀ (l1 : List α) (l2 : List β) (k : ℕ), k < l1.length → k < l2.length →
      (l1.zip l2).get? k = some (l1.getD k d1, l2.getD k d2) := by
  intro l1
  induction l1 with
  | nil => intro l2 k h1 h2; simp at h1
  | cons a l ih =>
      intro l2 k h1 h2
      cases l2 with
      | nil => simp at h2
      | cons b l2 =>
          cases k with
          | zero => simp [List.zip_cons_cons]
          | succ k =>
              simp only [List.zip_cons_cons, List.get?_cons_succ, List.getD_cons_succ]
              exact ih l2 k (by simpa using h1) (by simpa using h2)

/-- Claim C10: `get_frame` on a frame of `N` atoms returns `N` particle
records with ids `0..N-1` in atom order, each carrying the atom's x/y/z
position, the hex colour of the element's reference-table triple, and radius
`0.25 * (2 - exp(-0.2 * Z))`; that radius is strictly increasing in the
atomic number and always below `0.5`. -/
theorem get_frame_spec (getAtoms : ℕ → DAtoms) (jmol : ℕ → ℚ × ℚ × ℚ) (cutoff : ℕ → ℝ)
    (step : ℕ) (hwf : (getAtoms step).numbers.length = (getAtoms step).positions.length) :
    ((get_frame getAtoms jmol cutoff step).particles.length = (getAtoms step).numbers.length) ∧
    ((get_frame getAtoms jmol cutoff step).particles.map (fun pr => pr.id) =
      List.range (getAtoms step).numbers.length) ∧
    (∀ k, k < (getAtoms step).numbers.length →
      (get_frame getAtoms jmol cutoff step).particles.get? k = some
        { id := k
          x := ((getAtoms step).positions.getD k 0).x
          y := ((getAtoms step).positions.getD k 0).y
          z := ((getAtoms step).positions.getD k 0).z
          color := _rgb2hex (jmol ((getAtoms step).numbers.getD k 0))
          radius := particleRadius ((getAtoms step).numbers.getD k 0) }) ∧
    (∀ z1 z2 : ℕ, z1 < z2 → particleRadius z1 < particleRadius z2) ∧
    (∀ z : ℕ, particleRadius z < 0.5) := by
  refine ⟨?_, ?_, ?_, ?_, ?_⟩
  · simp only [get_frame, List.length_mapIdx, List.length_zip, ← hwf, Nat.min_self]
  · show (((getAtoms step).numbers.zip (getAtoms step).positions).mapIdx _).map _ = _
    rw [List.mapIdx_eq_enum_map, List.map_map]
    have hfst : ((fun pr : RParticle => pr.id) ∘
        Function.uncurry (fun idx (a : ℕ × V3) =>
          ({ id := idx, x := a.2.x, y := a.2.y, z := a.2.z,
             color := _rgb2hex (jmol a.1), radius := particleRadius a.1 } : RParticle))) =
        Prod.fst := by
      funext p
      rfl
    rw [hfst, List.enum_map_fst, List.length_zip, ← hwf, Nat.min_self]
  · intro k hk
    show (((getAtoms step).numbers.zip (getAtoms step).positions).mapIdx _).get? k = _
    rw [mapIdx_get?, zip_get?_getD 0 0 _ _ k hk (hwf ▸ hk)]
    rfl
  · intro z1 z2 h
    have hc : (z1 : ℝ) < (z2 : ℝ) := by exact_mod_cast h
    have he : Real.exp (-0.2 * (z2 : ℝ)) < Real.exp (-0.2 * (z1 : ℝ)) := by
      apply Real.exp_lt_exp.mpr
      linarith
    simp only [particleRadius]
    linarith
  · intro z
    have he : 0 < Real.exp (-0.2 * (z : ℝ)) := Real.exp_pos _
    simp only [particleRadius]
    linarith

/-- The concrete hydrogen–carbon structure of the `get_frame` witness. -/
noncomputable def atomsHC : DAtoms :=
  { numbers := [1, 6], positions := [⟨0, 0, 0⟩, ⟨1, 1, 1⟩], cell := (0, 0, 0), pbc := false }

/-- Witness for `get_frame_spec`: ids `[0, 1]` on a two-atom frame and the
radius at atomic number 1 strictly below the radius at atomic number 6. -/
theorem get_frame_spec_witness :
    ((get_frame (fun _ => atomsHC) (fun _ => (0, 0, 1)) (fun _ => 1) 0).particles.map
        (fun pr => pr.id) = List.range 2) ∧
    particleRadius 1 < particleRadius 6 := by
  have h := get_frame_spec (fun _ => atomsHC) (fun _ => (0, 0, 1)) (fun _ => 1) 0 rfl
  exact ⟨h.2.1, h.2.2.2.1 1 6 (by norm_num)⟩

/-! ## Claim C4 -/

theorem scatterFrom_get? (ids : List ℕ) (vals : List V3) :
    ∀ (pos : List V3) (j0 k : ℕ),
      (scatterFrom j0 ids vals pos).get? k =
        (pos.get? k).map (fun p =>
          if (j0 + k) ∈ ids then vals.getD (ids.indexOf (j0 + k)) p else p) := by
  intro pos
  induction pos with
  | nil => intro j0 k; simp [scatterFrom]
  | cons p ps ih =>
      intro j0 k
      cases k with
      | zero => simp [scatterFrom]
      | succ k =>
          have harg : j0 + (k + 1) = (j0 + 1) + k := by omega
          simp only [scatterFrom, List.get?_cons_succ, ih (j0 + 1) k, harg]

theorem scatter_get? (pos : List V3) (ids : List ℕ) (vals : List V3) (k : ℕ) :
    (scatter pos ids vals).get? k =
      (pos.get? k).map (fun p => if k ∈ ids then vals.getD (ids.indexOf k) p else p) := by
  have h := scatterFrom_get? ids vals pos 0 k
  simpa using h

theorem scatter_scatter (pos w w' : List V3) (ids : List ℕ) (hw' : ids.length ≤ w'.length) :
    scatter (scatter pos ids w) ids w' = scatter pos ids w' := by
  apply List.ext
  intro k
  rw [scatter_get?, scatter_get?, scatter_get?]
  cases hp : pos.get? k with
  | none => rfl
  | some p =>
      simp only [Option.map_some', Option.some.injEq]
      by_cases hk : k ∈ ids
      · have hidx : ids.indexOf k < w'.length :=
          lt_of_lt_of_le (List.indexOf_lt_length.mpr hk) hw'
        simp only [hk, if_true, List.getD_eq_getElem?_getD, List.getElem?_eq_getElem hidx,
          Option.getD_some]
      · simp [hk]

theorem indexOf_getD_of_nodup :
    ∀ (ids : List ℕ), ids.Nodup → ∀ k, k < ids.length → ids.indexOf (ids.getD k 0) = k := by
  intro ids
  induction ids with
  | nil => intro _ k hk; simp at hk
  | cons a l ih =>
      intro hnd k hk
      obtain ⟨hna, hnl⟩ := List.nodup_cons.mp hnd
      cases k with
      | zero => simp [List.indexOf_cons]
      | succ k =>
          have hk' : k < l.length := by simpa using hk
          have hmem : l.getD k 0 ∈ l := by
            rw [List.getD_eq_getElem?_getD, List.getElem?_eq_getElem hk']
            exact List.getElem_mem hk'
          have hne : (a == l.getD k 0) = false := by
            rw [beq_eq_false_iff_ne]
            intro h
            exact hna (h ▸ hmem)
          rw [List.getD_cons_succ, List.indexOf_cons, hne, Bool.cond_false, ih hnl k hk']

/-- Closed form of `Rotate.run`'s loop: starting from the `k`-fold rotated
selection, `n` more iterations produce the `(k+n)`-fold rotated selection and
append, for `i < n`, the frame whose selected positions are the
`(k+i+1)`-fold rotation of the original selection scattered into the base
frame. -/
theorem rotateLoop_closed (inc : ℝ) (v c : V3) (ids : List ℕ) (base : Frame) (sp0 : List V3)
    (hsp : ids.length ≤ sp0.length) :
    ∀ (n k : ℕ) (acc : List Frame),
      rotateLoop inc v c ids n
        (sp0.map ((rotatePoint inc v c)^[k]),
         (if k = 0 then base else
           { base with positions := scatter base.positions ids (sp0.map ((rotatePoint inc v c)^[k])) }),
         acc)
      = (sp0.map ((rotatePoint inc v c)^[k + n]),
         (if k + n = 0 then base else
           { base with positions := scatter base.positions ids (sp0.map ((rotatePoint inc v c)^[k + n])) }),
         acc ++ (List.range n).map (fun i =>
           { base with positions := scatter base.positions ids (sp0.map ((rotatePoint inc v c)^[k + i + 1])) })) := by
  intro n
  induction n with
  | zero =>
      intro k acc
      simp [rotateLoop]
  | succ m ih =>
      intro k acc
      have hmapsucc : ∀ j : ℕ,
          (sp0.map ((rotatePoint inc v c)^[j])).map (rotatePoint inc v c) =
            sp0.map ((rotatePoint inc v c)^[j + 1]) := by
        intro j
        rw [List.map_map]
        congr 1
        exact (Function.iterate_succ' (rotatePoint inc v c) j).symm
      have hatoms2 : ∀ k : ℕ,
          { (if k = 0 then base else
              { base with positions := scatter base.positions ids (sp0.map ((rotatePoint inc v c)^[k])) }) with
            positions := scatter
              (if k = 0 then base else
                { base with positions := scatter base.positions ids (sp0.map ((rotatePoint inc v c)^[k])) }).positions
              ids (sp0.map ((rotatePoint inc v c)^[k + 1])) } =
          { base with positions := scatter base.positions ids (sp0.map ((rotatePoint inc v c)^[k + 1])) } := by
        intro k
        cases k with
        | zero => simp
        | succ j =>
            have hj : j + 1 ≠ 0 := Nat.succ_ne_zero j
            rw [if_neg hj]
            have hlen : ids.length ≤ (sp0.map ((rotatePoint inc v c)^[j + 1 + 1])).length := by
              simpa using hsp
            simp only
            rw [scatter_scatter _ _ _ _ hlen]
      simp only [rotateLoop]
      rw [hmapsucc k, hatoms2 k]
      have hstep := ih (k + 1)
        (acc ++ [{ base with positions := scatter base.positions ids (sp0.map ((rotatePoint inc v c)^[k + 1])) }])
      rw [if_neg (Nat.succ_ne_zero k)] at hstep
      rw [hstep]
      have hkn : k + 1 + m = k + (m + 1) := by omega
      rw [hkn]
      have hrange : (List.range (m + 1)).map (fun i =>
          ({ base with positions := scatter base.positions ids (sp0.map ((rotatePoint inc v c)^[k + i + 1])) } : Frame)) =
          ({ base with positions := scatter base.positions ids (sp0.map ((rotatePoint inc v c)^[k + 1])) } : Frame) ::
          (List.range m).map (fun i =>
            ({ base with positions := scatter base.positions ids (sp0.map ((rotatePoint inc v c)^[k + 1 + i + 1])) } : Frame)) := by
        rw [List.range_succ_eq_map, List.map_cons, List.map_map]
        have h2 : ∀ i : ℕ, k + (i + 1) + 1 = k + 1 + i + 1 := by intro i; omega
        simp [Function.comp, h2]
        intro a _
        have h3 : k + (a + 1) = k + 1 + a := by omega
        rw [h3]
      rw [hrange]
      simp [List.append_assoc]

/-- The frames appended by `Rotate.run`'s loop, in closed form. -/
theorem rotateLoop_frames (inc : ℝ) (v c : V3) (ids : List ℕ) (base : Frame) (sp0 : List V3)
    (hsp : ids.length ≤ sp0.length) (n : ℕ) :
    (rotateLoop inc v c ids n (sp0, base, [])).2.2 =
      (List.range n).map (fun i =>
        { base with positions := scatter base.positions ids (sp0.map ((rotatePoint inc v c)^[i + 1])) }) := by
  have e0 : sp0.map ((rotatePoint inc v c)^[0]) = sp0 := by simp
  have h := rotateLoop_closed inc v c ids base sp0 hsp n 0 []
  rw [e0, if_pos rfl] at h
  rw [h]
  simp only [Nat.zero_add, List.nil_append]

theorem getD_map_range {α : Type _} (f : ℕ → α) (n i : ℕ) (h : i < n) (d : α) :
    ((List.range n).map f).getD i d = f i := by
  rw [List.getD_eq_getElem?_getD, List.getElem?_map, List.getElem?_range h]
  rfl

theorem getD_eq_getElem {α : Type _} (l : List α) (i : ℕ) (h : i < l.length) (d : α) :
    l.getD i d = l[i] := by
  rw [List.getD_eq_getElem?_getD, List.getElem?_eq_getElem h]
  rfl

theorem getD_mem {α : Type _} (l : List α) (i : ℕ) (h : i < l.length) (d : α) :
    l.getD i d ∈ l := by
  rw [getD_eq_getElem l i h d]
  exact List.getElem_mem h

@[simp] theorem apply_selection_positions (ids : List ℕ) (f : Frame) :
    (apply_selection ids f).1.positions = ids.map (fun i => f.positions.getD i 0) := rfl

/-- The `i`-th frame appended by `Rotate.run` (specification form): the
original selected positions rotated `i+1` increments and scattered back into
the current frame. -/
noncomputable def rotatedFrame (cfg : RotateCfg) (axis center : V3) (f : Frame)
    (sel : List ℕ) (i : ℕ) : Frame :=
  { f with
      positions := scatter f.positions sel
        ((sel.map (fun j => f.positions.getD j 0)).map
          ((rotatePoint (signedAngle cfg / (cfg.steps : ℝ)) axis center)^[i + 1])) }

/-- Claim C4: with exactly 2 placed points, `Rotate.run` appends exactly
`steps` frames; in the `i`-th appended frame the selected atoms have been
rotated `i+1` increments of `signedAngle/steps` degrees (sign flipped for
`direction="right"`) about the axis through the first point along
`points[1] - points[0]`, non-selected atoms are unchanged in every appended
frame, and in the last appended frame the cumulative rotation of the selected
atoms equals the configured angle applied in one rotation. -/
theorem rotate_run_spec (cfg : RotateCfg) (s : VisState) (p0 p1 : V3)
    (hpts : s.points = [p0, p1]) (hone : 1 ≤ cfg.steps)
    (hstep : s.step < s.frames.length) (hnd : s.selection.Nodup)
    (hsel : ∀ i ∈ s.selection, i < (currentFrame s).positions.length)
    (hv : p1 - p0 ≠ 0) :
    ∃ appended : List Frame,
      rotateRun cfg s = Except.ok { s with frames := s.frames.take (s.step + 1) ++ appended } ∧
      appended.length = cfg.steps ∧
      (∀ i, i < cfg.steps →
        appended.getD i emptyAtoms = rotatedFrame cfg (p1 - p0) p0 (currentFrame s) s.selection i) ∧
      (∀ i, i < cfg.steps → ∀ j, j ∉ s.selection →
        (appended.getD i emptyAtoms).positions.get? j = (currentFrame s).positions.get? j) ∧
      (∀ i, i < cfg.steps → ∀ k, k < s.selection.length →
        (appended.getD i emptyAtoms).positions.get? (s.selection.getD k 0) =
          some ((rotatePoint (signedAngle cfg / (cfg.steps : ℝ)) (p1 - p0) p0)^[i + 1]
            ((currentFrame s).positions.getD (s.selection.getD k 0) 0))) ∧
      (∀ k, k < s.selection.length →
        (appended.getD (cfg.steps - 1) emptyAtoms).positions.get? (s.selection.getD k 0) =
          some (rotatePoint (signedAngle cfg) (p1 - p0) p0
            ((currentFrame s).positions.getD (s.selection.getD k 0) 0))) := by
  have hcur := currentFrame_truncFuture s hstep
  have hgetDfr : ∀ i, i < cfg.steps →
      ((List.range cfg.steps).map (rotatedFrame cfg (p1 - p0) p0 (currentFrame s) s.selection)).getD
        i emptyAtoms = rotatedFrame cfg (p1 - p0) p0 (currentFrame s) s.selection i := by
    intro i hi
    exact getD_map_range _ cfg.steps i hi _
  have hmain3 : ∀ i, i < cfg.steps → ∀ k, k < s.selection.length →
      (((List.range cfg.steps).map
          (rotatedFrame cfg (p1 - p0) p0 (currentFrame s) s.selection)).getD
          i emptyAtoms).positions.get? (s.selection.getD k 0) =
        some ((rotatePoint (signedAngle cfg / (cfg.steps : ℝ)) (p1 - p0) p0)^[i + 1]
          ((currentFrame s).positions.getD (s.selection.getD k 0) 0)) := by
    intro i hi k hk
    rw [hgetDfr i hi]
    have hjmem : s.selection.getD k 0 ∈ s.selection := getD_mem _ k hk 0
    have hjlt : s.selection.getD k 0 < (currentFrame s).positions.length := hsel _ hjmem
    show (scatter (currentFrame s).positions s.selection _).get? (s.selection.getD k 0) = _
    rw [scatter_get?, List.get?_eq_getElem?, List.getElem?_eq_getElem hjlt]
    simp only [Option.map_some', Option.some.injEq, hjmem, if_true]
    rw [indexOf_getD_of_nodup s.selection hnd k hk]
    have hklt2 : k < ((s.selection.map (fun j => (currentFrame s).positions.getD j 0)).map
        ((rotatePoint (signedAngle cfg / (cfg.steps : ℝ)) (p1 - p0) p0)^[i + 1])).length := by
      simpa using hk
    rw [getD_eq_getElem _ k hklt2]
    rw [List.getElem_map, List.getElem_map]
    congr 1
    rw [getD_eq_getElem _ k hk]
  refine ⟨(List.range cfg.steps).map
      (rotatedFrame cfg (p1 - p0) p0 (currentFrame s) s.selection),
    ?_, by simp, hgetDfr, ?_, hmain3, ?_⟩
  · simp only [rotateRun, truncFuture_points, truncFuture_selection, hpts, hcur,
      apply_selection_positions]
    rw [if_neg (by simp)]
    rw [rotateLoop_frames _ _ _ _ _ _ (by simp) cfg.steps]
    simp only [List.getD_cons_zero, List.getD_cons_succ]
    rfl
  · intro i hi j hj
    rw [hgetDfr i hi]
    show (scatter (currentFrame s).positions s.selection _).get? j = _
    rw [scatter_get?]
    cases (currentFrame s).positions.get? j with
    | none => rfl
    | some p => simp [hj]
  · intro k hk
    have h := hmain3 (cfg.steps - 1) (by omega) k hk
    rw [h]
    congr 1
    rw [Nat.sub_add_cancel hone,
      rotatePoint_iterate (signedAngle cfg / (cfg.steps : ℝ)) (p1 - p0) p0 hv cfg.steps]
    congr 1
    have hne : (cfg.steps : ℝ) ≠ 0 := Nat.cast_ne_zero.mpr (by omega)
    field_simp

/-- The concrete state of the `Rotate` witness: one frame, two placed points
on the z axis, empty selection. -/
noncomputable def rotateWitState : VisState :=
  { frames := [frameH], step := 0, selection := [], points := [⟨0, 0, 0⟩, ⟨0, 0, 1⟩],
    segments := [], camera := (0, 0), bookmarks := [], geometries := [] }

/-- Witness for `rotate_run_spec` at a concrete state (one step). -/
theorem rotate_run_spec_witness :
    ∃ appended : List Frame,
      rotateRun { angle := 90, direction := Direction.left, steps := 1, sleep := 0 }
          rotateWitState =
        Except.ok { rotateWitState with frames := rotateWitState.frames.take 1 ++ appended } ∧
      appended.length = 1 := by
  obtain ⟨ap, h1, h2, _, _, _⟩ := rotate_run_spec
    { angle := 90, direction := Direction.left, steps := 1, sleep := 0 } rotateWitState
    ⟨0, 0, 0⟩ ⟨0, 0, 1⟩ rfl (by norm_num) (by norm_num [rotateWitState])
    (by simp [rotateWitState]) (by simp [rotateWitState])
    (by
      intro h
      have hz := congrArg V3.z h
      simp at hz)
  exact ⟨ap, h1, h2⟩
